import Mathlib

/-!
Verification of the `CrossOriginStorage` content-addressed cache adapter.

This file gives a shallow embedding of the adapter class found in the
repository (module constant `HASH_ALGORITHM`, static `isAvailable`, the async
methods `match` and `put`, and the helpers `_getFileHash` and `_getBlobHash`),
and proves / refutes the frozen specification claims about it.

Modelling conventions:
* a binary payload (`Blob`) is a list of byte values;
* promise rejection is `Except.error`, a resolved value is `Except.ok`;
* the environment (`Env`) packages the external collaborators: the network
  `fetch` (returning `some text` when the fetch + `text()` chain resolves and
  `none` when it rejects), the `crypto.subtle.digest` primitive as an abstract
  byte-list function, and the capability-gated cross-origin storage backend
  with injectable failures for each backend primitive;
* the backend's persistent state is a `Store`, threaded explicitly; every
  operation returns its result together with the state as left behind.
-/

/-- A binary payload: the byte values of a blob / ArrayBuffer. -/
abbrev Blob := List Nat

/-- The `{ algorithm, value }` record used as the content-addressed cache key. -/
structure ContentHash where
  algorithm : String
  value : String
deriving DecidableEq

/-- Module constant `HASH_ALGORITHM = "SHA-256"`. -/
def HASH_ALGORITHM : String := "SHA-256"

/-- Failure modes of the embedded asynchronous operations. `fetchFailed` is a
rejection of the companion `fetch(...).then(r => r.text())` chain;
`backendUnavailable` is the `TypeError` raised when
`navigator.crossOriginStorage` is absent; the rest are backend rejections. -/
inductive JsError where
  | fetchFailed
  | backendUnavailable
  | notFound
  | permissionDenied
  | ioError
deriving DecidableEq

/-- Behaviour of the capability-gated cross-origin storage backend.
`avail` is whether `navigator.crossOriginStorage` exists; the remaining
fields inject an arbitrary failure into each backend primitive, letting the
theorems quantify over every backend failure mode. -/
structure BackendEnv where
  avail : Bool
  reqFail : ContentHash → Bool → Option JsError
  getFileFail : ContentHash → Option JsError
  createWritableFail : ContentHash → Option JsError
  writeFail : ContentHash → Option JsError
  closeFail : ContentHash → Option JsError

/-- The external world an adapter call runs against. -/
structure Env where
  fetchText : String → Option String
  sha256 : Blob → List Nat
  backend : BackendEnv

/-- Backend state: the stored (hash, content) pairs, most recent first. -/
abbrev Store := List (ContentHash × Blob)

/-- Look a hash up in the backend state. -/
def Store.lookup : Store → ContentHash → Option Blob
  | [], _ => none
  | (k, v) :: rest, h => if k = h then some v else Store.lookup rest h

/-! ## The companion-pointer pattern

`_getFileHash` extracts the digest with
`text.replace(/.*?\n^oid sha256:(\w+)\n.*?$/gm, "$1")`.
The following functions implement that JavaScript `String.prototype.replace`
call exactly: `.` matches any character except a line terminator, a lazy
`.*?` takes the shortest viable run, `^`/`$` are multiline anchors, `\w` is
`[A-Za-z0-9_]`, the global flag resumes scanning at the end of each match,
and every unmatched stretch of the input is kept in the output. -/

/-- JavaScript line terminators: the characters `.` does not match and before
which a multiline `$` matches. -/
def isLineTerm (c : Char) : Bool :=
  c = '\n' || c = '\r' || c = '\u2028' || c = '\u2029'

/-- JavaScript word characters, the class `\w`. -/
def isWordChar (c : Char) : Bool := c.isAlphanum || c = '_'

/-- Lazy `.*?` followed by the literal `\n`: succeeds iff the first line
terminator at or after the current position is a `\n`, and returns the suffix
just after it. -/
def scanDotNl : List Char → Option (List Char)
  | [] => none
  | c :: r => if c = '\n' then some r else if isLineTerm c then none else scanDotNl r

/-- The literal `oid sha256:` of the pattern. -/
def oidMarker : List Char := "oid sha256:".data

/-- Match the literal `oid sha256:` at the current position. -/
def stripOid (l : List Char) : Option (List Char) :=
  if oidMarker.isPrefixOf l then some (l.drop oidMarker.length) else none

/-- One attempt of `.*?\n^oid sha256:(\w+)\n.*?$` at a fixed start position:
on success returns the capture `(\w+)` and the suffix after the match end
(the lazy `.*?$` runs to the first line-terminator or the end of input, and
the `^` after the matched `\n` always holds). -/
def matchAt (s : List Char) : Option (List Char × List Char) :=
  match scanDotNl s with
  | none => none
  | some r1 =>
    match stripOid r1 with
    | none => none
    | some r2 =>
      if (r2.takeWhile isWordChar).isEmpty then none
      else
        match r2.dropWhile isWordChar with
        | [] => none
        | c :: r3 =>
          if c = '\n' then
            some (r2.takeWhile isWordChar, r3.dropWhile (fun x => !isLineTerm x))
          else none

/-- Leftmost match: try `matchAt` at each successive start position; returns
the text before the match, the capture, and the suffix after the match. -/
def findMatch : List Char → Option (List Char × List Char × List Char)
  | [] => none
  | c :: rest =>
    match matchAt (c :: rest) with
    | some (w, tail) => some ([], w, tail)
    | none =>
      match findMatch rest with
      | some (pre, w, tail) => some (c :: pre, w, tail)
      | none => none

/-- Global replace with `"$1"`: each match is replaced by its capture, the
unmatched stretches are kept, scanning resumes after each match.  Structured
with a fuel argument (every match consumes at least one character, so
`s.length` fuel is always enough; see `gsubAux_fuel`). -/
def gsubAux : Nat → List Char → List Char
  | 0, s => s
  | f + 1, s =>
    match findMatch s with
    | none => s
    | some (pre, w, tail) => pre ++ w ++ gsubAux f tail

/-- `text.replace(/.*?\n^oid sha256:(\w+)\n.*?$/gm, "$1")` on char lists. -/
def gsubOid (s : List Char) : List Char := gsubAux s.length s

/-! ## The hash resolver `_getFileHash` -/

/-- `url.replace(/\/resolve\//, "/raw/")`: replace the leftmost occurrence of
`pat`, if any, by `repl`. -/
def replaceFirst : List Char → List Char → List Char → List Char
  | [], _, _ => []
  | c :: rest, pat, repl =>
    if pat.isPrefixOf (c :: rest) then repl ++ (c :: rest).drop pat.length
    else c :: replaceFirst rest pat repl

/-- Substring search, leftmost first, as `String.prototype.includes` and an
unanchored literal regex `test` perform it. -/
def listIncludes (pat : List Char) : List Char → Bool
  | [] => pat.isEmpty
  | c :: rest => pat.isPrefixOf (c :: rest) || listIncludes pat rest

/-- `/\/resolve\/main\/onnx\//.test(url)`: the eligibility gate. -/
def testResolveOnnx (url : String) : Bool :=
  listIncludes "/resolve/main/onnx/".data url.data

/-- The companion ("raw") location derived from an eligible location. -/
def rawUrl (url : String) : String :=
  String.mk (replaceFirst url.data "/resolve/".data "/raw/".data)

/-- `text.includes("oid sha256:")`. -/
def containsOid (text : String) : Bool :=
  listIncludes oidMarker text.data

/-- `_getFileHash(url)`.  Note the source awaits
`fetch(rawUrl).then(r => r.text())` with no catch, so a rejected companion
fetch rejects `_getFileHash` itself; a resolved fetch whose text lacks the
marker yields `null` (here `none`), and otherwise the result of the global
replace is returned (with `|| null` demoting an empty string to `null`). -/
def getFileHash (env : Env) (url : String) : Except JsError (Option String) :=
  if testResolveOnnx url then
    match env.fetchText (rawUrl url) with
    | none => .error .fetchFailed
    | some text =>
      if containsOid text then
        if (gsubOid text.data).isEmpty then .ok none
        else .ok (some (String.mk (gsubOid text.data)))
      else .ok none
  else .ok none

/-! ## The digest primitive `_getBlobHash` -/

/-- A lowercase hexadecimal digit. -/
def hexDigitChar (n : Nat) : Char :=
  if n < 10 then Char.ofNat (48 + n) else Char.ofNat (87 + n)

/-- `Number.prototype.toString(16)` for naturals, fuelled (the fuel only needs
to exceed the digit count, and `n` digits never exceed `n` fuel). -/
def toString16Aux : Nat → Nat → List Char
  | 0, n => [hexDigitChar (n % 16)]
  | f + 1, n =>
    if n < 16 then [hexDigitChar n] else toString16Aux f (n / 16) ++ [hexDigitChar (n % 16)]

/-- `byte.toString(16)`. -/
def toString16 (n : Nat) : List Char := toString16Aux n n

/-- `.padStart(2, "0")`. -/
def padStart2 (l : List Char) : List Char := List.replicate (2 - l.length) '0' ++ l

/-- `byte.toString(16).padStart(2, "0")`. -/
def byteToHex (b : Nat) : String := String.mk (padStart2 (toString16 b))

/-- `_getBlobHash(blob)`: digest the payload bytes with the fixed algorithm
and hex-encode the digest bytes in order. -/
def getBlobHash (sha256 : Blob → List Nat) (blob : Blob) : ContentHash :=
  let hashArray := sha256 blob
  let hashHex := String.join (hashArray.map byteToHex)
  { algorithm := "SHA-256", value := hashHex }

/-! ## Backend primitives

Each primitive takes the current `Store`; the only one that changes it is the
stream write.  When `navigator.crossOriginStorage` is absent, the very access
to `requestFileHandles` throws, before anything reaches a backend. -/

/-- `navigator.crossOriginStorage.requestFileHandles([hash], { create })`,
destructured to its single handle (the handle is identified by its hash). -/
def requestFileHandles (env : Env) (s : Store) (hash : ContentHash) (create : Bool) :
    Except JsError ContentHash :=
  if env.backend.avail then
    match env.backend.reqFail hash create with
    | some e => .error e
    | none =>
      if create then .ok hash
      else if (Store.lookup s hash).isSome then .ok hash else .error .notFound
  else .error .backendUnavailable

/-- `handle.getFile()`: read the stored content of the handle's hash. -/
def getFile (env : Env) (s : Store) (h : ContentHash) : Except JsError Blob :=
  match env.backend.getFileFail h with
  | some e => .error e
  | none =>
    match Store.lookup s h with
    | some b => .ok b
    | none => .error .notFound

/-- `handle.createWritable()`. -/
def createWritable (env : Env) (h : ContentHash) : Except JsError ContentHash :=
  match env.backend.createWritableFail h with
  | some e => .error e
  | none => .ok h

/-- `writableStream.write(blob)`: on success the store now carries the
payload under the stream's hash. -/
def wswrite (env : Env) (s : Store) (h : ContentHash) (b : Blob) : Except JsError Store :=
  match env.backend.writeFail h with
  | some e => .error e
  | none => .ok ((h, b) :: s)

/-- `writableStream.close()`. -/
def wsclose (env : Env) (h : ContentHash) : Except JsError Unit :=
  match env.backend.closeFail h with
  | some e => .error e
  | none => .ok ()

/-! ## The adapter operations -/

/-- `static isAvailable`: `typeof navigator !== "undefined" &&
"crossOriginStorage" in navigator`. -/
def isAvailable (env : Env) : Bool := env.backend.avail

/-- The try/catch block of `match`: request a read-only handle for the hash
`{ HASH_ALGORITHM, hv }`, read its file, wrap it as the response; any failure
is caught and becomes `undefined` (here `ok none`). -/
def matchTryBlock (env : Env) (s : Store) (hv : String) :
    Except JsError (Option Blob) × Store :=
  match requestFileHandles env s { algorithm := HASH_ALGORITHM, value := hv } false with
  | .error _ => (.ok none, s)
  | .ok h =>
    match getFile env s h with
    | .error _ => (.ok none, s)
    | .ok blob => (.ok (some blob), s)

/-- `match(request)`.  The hash resolution is awaited outside the try block
(so its rejection is not caught); only the backend interaction
(`matchTryBlock`) is wrapped in try/catch. -/
def matchFn (env : Env) (request : String) (s : Store) :
    Except JsError (Option Blob) × Store :=
  match getFileHash env request with
  | .error e => (.error e, s)
  | .ok none => (.ok none, s)
  | .ok (some hv) => matchTryBlock env s hv

/-- `put(request, response)`: read the payload, digest it, acquire a
create-capable handle under that digest, write, close.  Nothing is caught. -/
def putFn (env : Env) (_request : String) (response : Blob) (s : Store) :
    Except JsError Unit × Store :=
  match requestFileHandles env s (getBlobHash env.sha256 response) true with
  | .error e => (.error e, s)
  | .ok h =>
    match createWritable env h with
    | .error e => (.error e, s)
    | .ok wr =>
      match wswrite env s wr response with
      | .error e => (.error e, s)
      | .ok s1 =>
        match wsclose env wr with
        | .error e => (.error e, s1)
        | .ok _ => (.ok (), s1)

/-! ## Supporting lemmas -/

/-- The length of `dropWhile` never exceeds the input's length. -/
theorem length_dropWhile_le (p : Char → Bool) (l : List Char) :
    (l.dropWhile p).length ≤ l.length := by
  induction l with
  | nil => simp
  | cons c cs ih =>
    by_cases h : p c
    · simp only [List.dropWhile_cons, h, if_true]
      exact Nat.le_trans ih (Nat.le_succ _)
    · simp [List.dropWhile_cons, h]

/-- A successful `scanDotNl` strictly shortens the input. -/
theorem scanDotNl_lt {s r : List Char} (h : scanDotNl s = some r) :
    r.length < s.length := by
  induction s generalizing r with
  | nil => exact absurd h (by simp [scanDotNl])
  | cons c cs ih =>
    unfold scanDotNl at h
    by_cases hc : c = '\n'
    · rw [if_pos hc] at h
      cases h
      simp
    · rw [if_neg hc] at h
      by_cases hl : isLineTerm c
      · rw [if_pos hl] at h; exact absurd h (by simp)
      · rw [if_neg hl] at h
        exact Nat.lt_trans (ih h) (Nat.lt_succ_self _)

/-- A successful `stripOid` does not lengthen the input. -/
theorem stripOid_le {l r : List Char} (h : stripOid l = some r) :
    r.length ≤ l.length := by
  unfold stripOid at h
  by_cases hp : oidMarker.isPrefixOf l
  · rw [if_pos hp] at h
    cases h
    simp [Nat.sub_le]
  · rw [if_neg hp] at h; exact absurd h (by simp)

/-- A successful `matchAt` consumes at least one character: the suffix after
the match is strictly shorter than the input. -/
theorem matchAt_tail_lt {s w t : List Char} (h : matchAt s = some (w, t)) :
    t.length < s.length := by
  unfold matchAt at h
  split at h
  · exact absurd h (by simp)
  next r1 hs1 =>
    split at h
    · exact absurd h (by simp)
    next r2 hs2 =>
      split at h
      · exact absurd h (by simp)
      · split at h
        · exact absurd h (by simp)
        next c r3 hd =>
          split at h
          · have ht : t = r3.dropWhile (fun x => !isLineTerm x) :=
              ((Prod.mk.injEq _ _ _ _).mp ((Option.some.injEq _ _).mp h)).2.symm
            have l1 : r1.length < s.length := scanDotNl_lt hs1
            have l2 : r2.length ≤ r1.length := stripOid_le hs2
            have l3 : (c :: r3).length ≤ r2.length := by
              rw [← hd]; exact length_dropWhile_le _ _
            have l4 : t.length ≤ r3.length := by
              rw [ht]; exact length_dropWhile_le _ _
            simp only [List.length_cons] at l3
            omega
          · exact absurd h (by simp)

/-- A found match leaves a strictly shorter suffix to scan. -/
theorem findMatch_tail_lt : ∀ {s pre w t : List Char},
    findMatch s = some (pre, w, t) → t.length < s.length := by
  intro s
  induction s with
  | nil => intro pre w t h; exact absurd h (by simp [findMatch])
  | cons c rest ih =>
    intro pre w t h
    unfold findMatch at h
    split at h
    next w1 t1 hm =>
      have ht : t1 = t := congrArg (fun x => x.2.2) ((Option.some.injEq _ _).mp h)
      subst ht
      exact matchAt_tail_lt hm
    next hm =>
      split at h
      next p1 w1 t1 hf =>
        have ht : t1 = t := congrArg (fun x => x.2.2) ((Option.some.injEq _ _).mp h)
        subst ht
        have := ih hf
        simp only [List.length_cons]
        omega
      next => exact absurd h (by simp)

/-- `gsubAux` is fuel-insensitive above the input length. -/
theorem gsubAux_congr : ∀ (f g : Nat) (s : List Char),
    s.length ≤ f → s.length ≤ g → gsubAux f s = gsubAux g s := by
  intro f
  induction f with
  | zero =>
    intro g s hf _
    have hs : s = [] := List.length_eq_zero.mp (Nat.le_zero.mp hf)
    subst hs
    cases g with
    | zero => rfl
    | succ g => simp [gsubAux, findMatch]
  | succ f ih =>
    intro g s hf hg
    cases g with
    | zero =>
      have hs : s = [] := List.length_eq_zero.mp (Nat.le_zero.mp hg)
      subst hs
      simp [gsubAux, findMatch]
    | succ g =>
      simp only [gsubAux]
      cases hm : findMatch s with
      | none => rfl
      | some pwt =>
        obtain ⟨pre, w, t⟩ := pwt
        have hlt := findMatch_tail_lt hm
        show pre ++ w ++ gsubAux f t = pre ++ w ++ gsubAux g t
        rw [ih g t (by omega) (by omega)]

/-- `s.length` fuel computes the full global replace. -/
theorem gsubAux_fuel (f : Nat) (s : List Char) (hf : s.length ≤ f) :
    gsubAux f s = gsubOid s :=
  gsubAux_congr f s.length s hf (Nat.le_refl _)

/-- `.*?\n` at the start of `p ++ '\n' :: r` reaches exactly the shown
newline when `p` is free of line terminators. -/
theorem scanDotNl_pre (p r : List Char) (hp : ∀ c ∈ p, isLineTerm c = false) :
    scanDotNl (p ++ '\n' :: r) = some r := by
  induction p with
  | nil => simp [scanDotNl]
  | cons c cs ih =>
    have hc : isLineTerm c = false := hp c (List.mem_cons_self c cs)
    have hcn : ¬ c = '\n' := by
      intro h; subst h; exact absurd hc (by decide)
    rw [List.cons_append]
    unfold scanDotNl
    rw [if_neg hcn, hc]
    simpa using ih (fun x hx => hp x (List.mem_cons_of_mem _ hx))

/-- `stripOid` strips an explicit leading marker. -/
theorem stripOid_pre (x : List Char) : stripOid (oidMarker ++ x) = some x := by
  unfold stripOid
  rw [if_pos]
  · rw [List.drop_left]
  · exact List.isPrefixOf_iff_prefix.mpr (List.prefix_append _ _)

/-- `takeWhile`/`dropWhile` on a word-character run followed by a newline. -/
theorem takeWhile_word_nl (w rest : List Char) (hwc : ∀ c ∈ w, isWordChar c = true)
    (hr : isWordChar (rest.headD '\n') = false) (hne : rest ≠ []) :
    (w ++ rest).takeWhile isWordChar = w ∧
    (w ++ rest).dropWhile isWordChar = rest := by
  induction w with
  | nil =>
    cases rest with
    | nil => exact absurd rfl hne
    | cons c cs =>
      simp only [List.headD_cons] at hr
      simp [List.takeWhile_cons, List.dropWhile_cons, hr]
  | cons c cs ih =>
    have hc : isWordChar c = true := hwc c (List.mem_cons_self c cs)
    have := ih (fun x hx => hwc x (List.mem_cons_of_mem _ hx))
    simp only [List.cons_append, List.takeWhile_cons, List.dropWhile_cons, hc]
    simp [this.1, this.2]

/-- `dropWhile` of "not a line terminator" skips a clean block wholesale. -/
theorem dropWhile_clean_append (q t : List Char) (hq : ∀ c ∈ q, isLineTerm c = false) :
    (q ++ t).dropWhile (fun x => !isLineTerm x) =
      t.dropWhile (fun x => !isLineTerm x) := by
  induction q with
  | nil => rfl
  | cons c cs ih =>
    have hc : isLineTerm c = false := hq c (List.mem_cons_self c cs)
    simp only [List.cons_append, List.dropWhile_cons, hc]
    simpa using ih (fun x hx => hq x (List.mem_cons_of_mem _ hx))

/-- A nonempty pattern occurs in any text that sandwiches it. -/
theorem listIncludes_sandwich (pat a b : List Char) (hpat : pat ≠ []) :
    listIncludes pat (a ++ (pat ++ b)) = true := by
  induction a with
  | nil =>
    cases hp : pat with
    | nil => exact absurd hp hpat
    | cons ph pt =>
      subst hp
      have hpre : (ph :: pt).isPrefixOf ((ph :: pt) ++ b) = true :=
        List.isPrefixOf_iff_prefix.mpr (List.prefix_append _ _)
      rw [List.nil_append, List.cons_append]
      unfold listIncludes
      rw [← List.cons_append, hpre]
      simp
  | cons c cs ih =>
    rw [List.cons_append]
    unfold listIncludes
    simp [ih]

/-- The pattern's attempt at the start of a canonical pointer block succeeds:
it captures the word run and ends the match at the first line terminator
after the line that follows the digest (`tl` is that terminator residue,
nothing or a lone newline). -/
theorem matchAt_pointer (p w q tl : List Char)
    (hp : ∀ c ∈ p, isLineTerm c = false)
    (hq : ∀ c ∈ q, isLineTerm c = false)
    (hw : w ≠ []) (hwc : ∀ c ∈ w, isWordChar c = true)
    (htl : tl = [] ∨ tl = ['\n']) :
    matchAt (p ++ '\n' :: (oidMarker ++ (w ++ '\n' :: (q ++ tl)))) = some (w, tl) := by
  have htw := takeWhile_word_nl w ('\n' :: (q ++ tl)) hwc rfl (by simp)
  have hwe : w.isEmpty = false := by
    cases w with
    | nil => exact absurd rfl hw
    | cons a l => rfl
  have hdw : (q ++ tl).dropWhile (fun x => !isLineTerm x) = tl := by
    rw [dropWhile_clean_append q tl hq]
    rcases htl with h | h <;> subst h <;> rfl
  simp only [matchAt, scanDotNl_pre p _ hp, stripOid_pre, htw.1, htw.2, hwe,
    Bool.false_eq_true, if_false]
  simp [hdw]

/-- When the pattern already matches at position zero, the leftmost match has
no preceding residue. -/
theorem findMatch_of_matchAt {s w t : List Char} (hs : s ≠ [])
    (h : matchAt s = some (w, t)) : findMatch s = some ([], w, t) := by
  cases s with
  | nil => exact absurd rfl hs
  | cons c rest => unfold findMatch; rw [h]

/-- The global replace leaves an empty input unchanged. -/
theorem gsubAux_nil (f : Nat) : gsubAux f [] = [] := by
  cases f with
  | zero => rfl
  | succ f => rfl

/-- A lone newline contains no match and is left unchanged. -/
theorem gsubAux_single_nl (f : Nat) : gsubAux f ['\n'] = ['\n'] := by
  cases f with
  | zero => rfl
  | succ f => rfl

/-- Global replace on a canonical pointer block: the digest is captured in
place of the whole matched block and the terminator residue survives. -/
theorem gsubOid_pointer (p w q tl : List Char)
    (hp : ∀ c ∈ p, isLineTerm c = false)
    (hq : ∀ c ∈ q, isLineTerm c = false)
    (hw : w ≠ []) (hwc : ∀ c ∈ w, isWordChar c = true)
    (htl : tl = [] ∨ tl = ['\n']) :
    gsubOid (p ++ '\n' :: (oidMarker ++ (w ++ '\n' :: (q ++ tl)))) = w ++ tl := by
  have hma := matchAt_pointer p w q tl hp hq hw hwc htl
  have hs : p ++ '\n' :: (oidMarker ++ (w ++ '\n' :: (q ++ tl))) ≠ [] := by simp
  have hfm := findMatch_of_matchAt hs hma
  obtain ⟨n, hn⟩ :
      ∃ n, (p ++ '\n' :: (oidMarker ++ (w ++ '\n' :: (q ++ tl)))).length = n + 1 := by
    cases hsl : (p ++ '\n' :: (oidMarker ++ (w ++ '\n' :: (q ++ tl)))).length with
    | zero => rw [List.length_eq_zero] at hsl; exact absurd hsl hs
    | succ n => exact ⟨n, rfl⟩
  unfold gsubOid
  rw [hn]
  simp only [gsubAux, hfm]
  rcases htl with h | h <;> subst h
  · simp [gsubAux_nil]
  · simp [gsubAux_single_nl]

/-! ## Witness environments -/

/-- A backend that is present and never fails. -/
def noFailBackend : BackendEnv :=
  ⟨true, fun _ _ => none, fun _ => none, fun _ => none, fun _ => none, fun _ => none⟩

/-- An absent backend (`navigator.crossOriginStorage` does not exist). -/
def absentBackend : BackendEnv :=
  ⟨false, fun _ _ => none, fun _ => none, fun _ => none, fun _ => none, fun _ => none⟩

/-- A digest stub for witness environments. -/
def zeroSha : Blob → List Nat := fun _ => []

/-- A companion fetch that always rejects (network failure). -/
def rejectFetch : String → Option String := fun _ => none

/-- A plain witness environment whose fetch resolves to marker-free text. -/
def envPlain : Env := ⟨fun _ => some "hello", zeroSha, noFailBackend⟩

/-! ## Claim theorems -/

/-- C7: for every location string not matching the eligible resolve-path
pattern, `_getFileHash` resolves to `null` immediately, and the result is the
same under every possible network behaviour — no companion fetch is issued. -/
theorem resolveHash_ineligible_null (env : Env) (url : String)
    (h : testResolveOnnx url = false) :
    getFileHash env url = .ok none ∧
    ∀ f : String → Option String,
      getFileHash { env with fetchText := f } url = .ok none := by
  have hgen : ∀ e : Env, getFileHash e url = .ok none := by
    intro e
    unfold getFileHash
    rw [h]
    simp
  exact ⟨hgen env, fun f => hgen _⟩

/-- C7 witness: a `config.json` location under `resolve/main` without an
`onnx/` segment is ineligible and resolves to `null` with no fetch. -/
theorem resolveHash_ineligible_null_witness :
    getFileHash envPlain "https://host/resolve/main/config.json" = .ok none ∧
    ∀ f : String → Option String,
      getFileHash { envPlain with fetchText := f }
        "https://host/resolve/main/config.json" = .ok none :=
  resolveHash_ineligible_null envPlain "https://host/resolve/main/config.json" (by decide)

/-- C9: the storage key and the whole write-path behaviour depend only on the
payload bytes; the request argument is entirely ignored, so byte-identical
payloads stored under different requests produce identical keys and effects. -/
theorem put_ignores_request (env : Env) (req1 req2 : String) (resp : Blob) (s : Store) :
    putFn env req1 resp s = putFn env req2 resp s := rfl

/-- C10: `match` never modifies backend state: whatever the resolution
outcome, backend result, hit, miss or failure, the store after the call is
the store before it (the read path requests handles without the create
option and performs no write or close). -/
theorem match_preserves_store (env : Env) (req : String) (s : Store) :
    (matchFn env req s).2 = s := by
  unfold matchFn matchTryBlock
  repeat' split
  all_goals rfl

/-- A successful handle request hands back the handle for the requested
hash itself. -/
theorem requestFileHandles_ok {env : Env} {s : Store} {hash h : ContentHash}
    {create : Bool} (hok : requestFileHandles env s hash create = .ok h) :
    h = hash := by
  unfold requestFileHandles at hok
  split at hok
  · split at hok
    · exact absurd hok (by simp)
    · split at hok
      · cases hok; rfl
      · split at hok
        · cases hok; rfl
        · exact absurd hok (by simp)
  · exact absurd hok (by simp)

/-- A successful `createWritable` hands back the stream for its handle. -/
theorem createWritable_ok {env : Env} {h wr : ContentHash}
    (hok : createWritable env h = .ok wr) : wr = h := by
  unfold createWritable at hok
  split at hok
  · exact absurd hok (by simp)
  · cases hok; rfl

/-- A successful stream write stores the payload under the stream's hash. -/
theorem wswrite_ok {env : Env} {s s1 : Store} {h : ContentHash} {b : Blob}
    (hok : wswrite env s h b = .ok s1) : s1 = (h, b) :: s := by
  unfold wswrite at hok
  split at hok
  · exact absurd hok (by simp)
  · cases hok; rfl

/-- C3: the write path is self-certifying.  `put`'s behaviour is identical
under every possible hash-resolver network behaviour (the side channel is
never consulted), and the store is only ever extended at the key
`_getBlobHash` computes from the payload bytes themselves. -/
theorem put_self_certifying (env : Env) (f : String → Option String)
    (req : String) (resp : Blob) (s : Store) :
    putFn { env with fetchText := f } req resp s = putFn env req resp s ∧
    ((putFn env req resp s).2 = s ∨
      (putFn env req resp s).2 = (getBlobHash env.sha256 resp, resp) :: s) := by
  refine ⟨rfl, ?_⟩
  unfold putFn
  split
  · exact Or.inl rfl
  next h hr =>
    split
    · exact Or.inl rfl
    next wr hc =>
      split
      · exact Or.inl rfl
      next s1 hwv =>
        have hh : h = getBlobHash env.sha256 resp := requestFileHandles_ok hr
        subst hh
        have hwr : wr = getBlobHash env.sha256 resp := createWritable_ok hc
        subst hwr
        have hs1 : s1 = (getBlobHash env.sha256 resp, resp) :: s := wswrite_ok hwv
        subst hs1
        split
        · exact Or.inr rfl
        · exact Or.inr rfl

/-- C6: `put` succeeds exactly when no step failed — the backend was present
and handle acquisition, stream creation, write and close all succeeded; any
failure at any step surfaces as a failure of `put` (never silently
swallowed). -/
theorem put_propagates_failures (env : Env) (req : String) (resp : Blob) (s : Store) :
    (putFn env req resp s).1 = .ok () ↔
      (env.backend.avail = true ∧
       env.backend.reqFail (getBlobHash env.sha256 resp) true = none ∧
       env.backend.createWritableFail (getBlobHash env.sha256 resp) = none ∧
       env.backend.writeFail (getBlobHash env.sha256 resp) = none ∧
       env.backend.closeFail (getBlobHash env.sha256 resp) = none) := by
  by_cases ha : env.backend.avail = true
  · cases hrf : env.backend.reqFail (getBlobHash env.sha256 resp) true with
    | some e => simp [putFn, requestFileHandles, ha, hrf]
    | none =>
      cases hcw : env.backend.createWritableFail (getBlobHash env.sha256 resp) with
      | some e => simp [putFn, requestFileHandles, createWritable, ha, hrf, hcw]
      | none =>
        cases hwf : env.backend.writeFail (getBlobHash env.sha256 resp) with
        | some e =>
          simp [putFn, requestFileHandles, createWritable, wswrite, ha, hrf, hcw, hwf]
        | none =>
          cases hcl : env.backend.closeFail (getBlobHash env.sha256 resp) with
          | some e =>
            simp [putFn, requestFileHandles, createWritable, wswrite, wsclose,
              ha, hrf, hcw, hwf, hcl]
          | none =>
            simp [putFn, requestFileHandles, createWritable, wswrite, wsclose,
              ha, hrf, hcw, hwf, hcl]
  · simp [putFn, requestFileHandles, ha]

/-- A successful read-only handle request implies the backend was present,
no failure was injected, and the store holds the hash. -/
theorem requestFileHandles_lookup_ok {env : Env} {s : Store} {hash h : ContentHash}
    (hok : requestFileHandles env s hash false = .ok h) :
    env.backend.avail = true ∧ env.backend.reqFail hash false = none ∧
      (Store.lookup s hash).isSome = true := by
  unfold requestFileHandles at hok
  simp only [Bool.false_eq_true, if_false] at hok
  split at hok
  next ha =>
    split at hok
    · exact absurd hok (by simp)
    next hrf =>
      split at hok
      next hl => exact ⟨ha, hrf, hl⟩
      · exact absurd hok (by simp)
  next ha => exact absurd hok (by simp)

/-- A successful `getFile` implies no injected failure and a stored entry. -/
theorem getFile_ok {env : Env} {s : Store} {h : ContentHash} {b : Blob}
    (hok : getFile env s h = .ok b) :
    env.backend.getFileFail h = none ∧ Store.lookup s h = some b := by
  unfold getFile at hok
  split at hok
  · exact absurd hok (by simp)
  next hgf =>
    split at hok
    next b2 hl => cases hok; exact ⟨hgf, hl⟩
    · exact absurd hok (by simp)

/-- When the backend is absent, any handle request throws at once. -/
theorem requestFileHandles_unavailable {env : Env} (s : Store) (hash : ContentHash)
    (create : Bool) (ha : env.backend.avail = false) :
    requestFileHandles env s hash create = .error .backendUnavailable := by
  unfold requestFileHandles
  simp [ha]

/-- Some backend failure mode affects the read-path lookup of hash `h`:
capability absent, injected handle-request failure (permission, transport),
injected read failure, or no content stored under the hash. -/
def backendLookupFails (env : Env) (s : Store) (h : ContentHash) : Prop :=
  env.backend.avail = false ∨ env.backend.reqFail h false ≠ none ∨
    env.backend.getFileFail h ≠ none ∨ Store.lookup s h = none

/-- C4: `match` never rejects because of the backend: any rejection it
propagates is a rejection of the hash resolution itself, and whenever a hash
was resolved but any backend failure mode is in effect (capability error,
handle-not-found, permission error, transport error — or a malformed hash
the backend refuses), `match` resolves to `undefined`. -/
theorem match_absorbs_backend_failures (env : Env) (req : String) (s : Store) :
    (∀ e, (matchFn env req s).1 = .error e → getFileHash env req = .error e) ∧
    (∀ hv, getFileHash env req = .ok (some hv) →
      backendLookupFails env s { algorithm := HASH_ALGORITHM, value := hv } →
      (matchFn env req s).1 = .ok none) := by
  constructor
  · intro e he
    unfold matchFn at he
    split at he
    next e2 hg =>
      have : e2 = e := by simpa using he
      rw [hg, this]
    next hg => exact absurd he (by simp)
    next hv hg =>
      unfold matchTryBlock at he
      split at he
      · exact absurd he (by simp)
      · split at he
        · exact absurd he (by simp)
        · exact absurd he (by simp)
  · intro hv hg hfail
    simp only [matchFn, hg]
    unfold matchTryBlock
    cases hr : requestFileHandles env s { algorithm := HASH_ALGORITHM, value := hv } false with
    | error e => rfl
    | ok h =>
      have hh : h = { algorithm := HASH_ALGORITHM, value := hv } :=
        requestFileHandles_ok hr
      subst hh
      obtain ⟨ha, hrf, hls⟩ := requestFileHandles_lookup_ok hr
      show (match getFile env s { algorithm := HASH_ALGORITHM, value := hv } with
            | Except.error _ => ((Except.ok none : Except JsError (Option Blob)), s)
            | Except.ok blob => (Except.ok (some blob), s)).1 = Except.ok none
      cases hgf : getFile env s { algorithm := HASH_ALGORITHM, value := hv } with
      | error e => rfl
      | ok b =>
        obtain ⟨hgfn, hlk⟩ := getFile_ok hgf
        rcases hfail with hf | hf | hf | hf
        · rw [ha] at hf; exact absurd hf (by simp)
        · exact absurd hrf hf
        · exact absurd hgfn hf
        · rw [hf] at hlk; exact absurd hlk (by simp)

/-- The exact companion pointer text of the spec's scenario shape, with an
uppercase digest and a trailing newline. -/
def lfsPointerUpper : String := "version 1\noid sha256:AB\nsize 5\n"

/-- Environment: the companion fetch resolves to `lfsPointerUpper` and the
backend is absent. -/
def envPtrAbsent : Env := ⟨fun _ => some lfsPointerUpper, zeroSha, absentBackend⟩

/-- C4 witness: with a resolved hash and an absent backend, `match` resolves
to `undefined`. -/
theorem match_absorbs_backend_failures_witness :
    (matchFn envPtrAbsent "https://h/resolve/main/onnx/m.onnx" []).1 = .ok none :=
  (match_absorbs_backend_failures envPtrAbsent "https://h/resolve/main/onnx/m.onnx" []).2
    "AB\n" rfl (Or.inl rfl)

/-- When the backend is absent, the try block's first step throws and the
failure is caught: a miss, with the store untouched. -/
theorem matchTryBlock_unavailable {env : Env} (s : Store) (hv : String)
    (ha : env.backend.avail = false) :
    matchTryBlock env s hv = (.ok none, s) := by
  unfold matchTryBlock
  rw [requestFileHandles_unavailable s _ false ha]

/-- C5 (amended): when the availability gate reports the backend absent,
`put` always fails with the store untouched, both operations behave
identically under every absent backend (no backend call is attempted), and
`match` returns `undefined` for every input whose hash resolution does not
itself reject.  (An input whose companion fetch rejects still rejects
`match`; see the counterexample.) -/
theorem availability_gate (env : Env) (b2 : BackendEnv) (req : String)
    (resp : Blob) (s : Store)
    (ha : env.backend.avail = false) (hb2 : b2.avail = false) :
    (putFn env req resp s).1 = .error .backendUnavailable ∧
    (putFn env req resp s).2 = s ∧
    putFn { env with backend := b2 } req resp s = putFn env req resp s ∧
    matchFn { env with backend := b2 } req s = matchFn env req s ∧
    ∀ v, getFileHash env req = .ok v → matchFn env req s = (.ok none, s) := by
  have hput : ∀ (e : Env), e.backend.avail = false →
      putFn e req resp s = (.error .backendUnavailable, s) := by
    intro e hae
    unfold putFn
    rw [requestFileHandles_unavailable s _ true hae]
  have hg0 : getFileHash { env with backend := b2 } req = getFileHash env req := rfl
  refine ⟨by rw [hput env ha], by rw [hput env ha], ?_, ?_, ?_⟩
  · rw [hput { env with backend := b2 } hb2, hput env ha]
  · unfold matchFn
    rw [hg0]
    cases hg : getFileHash env req with
    | error e => rfl
    | ok v =>
      cases v with
      | none => rfl
      | some hv =>
        show matchTryBlock { env with backend := b2 } s hv = matchTryBlock env s hv
        rw [@matchTryBlock_unavailable { env with backend := b2 } s hv hb2,
          matchTryBlock_unavailable s hv ha]
  · intro v hg
    unfold matchFn
    rw [hg]
    cases v with
    | none => rfl
    | some hv => exact matchTryBlock_unavailable s hv ha

/-- C5 witness: a concrete absent-backend environment in which `put` fails
without touching the store, behaviour is backend-independent, and resolved
inputs give a miss. -/
theorem availability_gate_witness :
    (putFn envPtrAbsent "u" [7] []).1 = .error .backendUnavailable ∧
    (putFn envPtrAbsent "u" [7] []).2 = ([] : Store) ∧
    putFn { envPtrAbsent with backend := absentBackend } "u" [7] []
      = putFn envPtrAbsent "u" [7] [] ∧
    matchFn { envPtrAbsent with backend := absentBackend } "u" []
      = matchFn envPtrAbsent "u" [] ∧
    ∀ v, getFileHash envPtrAbsent "u" = .ok v →
      matchFn envPtrAbsent "u" [] = (.ok none, []) :=
  availability_gate envPtrAbsent absentBackend "u" [7] [] rfl rfl

/-- Environment: the backend is absent and the companion fetch rejects. -/
def envAbsentReject : Env := ⟨rejectFetch, zeroSha, absentBackend⟩

/-- C5 counterexample: with the backend absent, an eligible request whose
companion fetch rejects makes `match` reject instead of returning
`undefined`, refuting "match returns undefined ... for every input". -/
theorem availability_gate_counterexample :
    isAvailable envAbsentReject = false ∧
    (matchFn envAbsentReject "https://h/resolve/main/onnx/m.onnx" []).1
      = .error .fetchFailed ∧
    (matchFn envAbsentReject "https://h/resolve/main/onnx/m.onnx" []).1
      ≠ .ok none := by
  refine ⟨rfl, rfl, fun h => ?_⟩
  have h2 : (matchFn envAbsentReject "https://h/resolve/main/onnx/m.onnx" []).1
      = Except.error JsError.fetchFailed := rfl
  rw [h2] at h
  cases h

/-- C1 (amended): for any request, when the companion fetch resolves (with
any status, to any text) and the `oid sha256:` marker is absent from the
text, `_getFileHash` returns `null` and `match` silently maps it to a miss;
but when an attempted companion fetch rejects (network error), the rejection
propagates through `_getFileHash` and through `match` instead of being
absorbed as `null`. -/
theorem resolve_miss_absorbed (env : Env) (url : String) (s : Store) :
    (∀ text, env.fetchText (rawUrl url) = some text → containsOid text = false →
      getFileHash env url = .ok none ∧ matchFn env url s = (.ok none, s)) ∧
    (testResolveOnnx url = true → env.fetchText (rawUrl url) = none →
      getFileHash env url = .error .fetchFailed ∧
      matchFn env url s = (.error .fetchFailed, s)) := by
  constructor
  · intro text hft hmk
    have hg : getFileHash env url = .ok none := by
      unfold getFileHash
      by_cases he : testResolveOnnx url = true
      · rw [if_pos he, hft]
        simp [hmk]
      · rw [if_neg he]
    refine ⟨hg, ?_⟩
    unfold matchFn
    rw [hg]
  · intro he hft
    have hg : getFileHash env url = .error .fetchFailed := by
      unfold getFileHash
      rw [if_pos he, hft]
    refine ⟨hg, ?_⟩
    unfold matchFn
    rw [hg]

/-- C1 witness: marker-free companion text gives a silent miss; a rejecting
companion fetch propagates. -/
theorem resolve_miss_absorbed_witness :
    (getFileHash envPlain "https://h/resolve/main/onnx/m.onnx" = .ok none ∧
      matchFn envPlain "https://h/resolve/main/onnx/m.onnx" [] = (.ok none, [])) ∧
    (getFileHash envAbsentReject "https://h/resolve/main/onnx/m.onnx"
        = .error .fetchFailed ∧
      matchFn envAbsentReject "https://h/resolve/main/onnx/m.onnx" []
        = (.error .fetchFailed, [])) :=
  ⟨(resolve_miss_absorbed envPlain "https://h/resolve/main/onnx/m.onnx" []).1
      "hello" rfl rfl,
   (resolve_miss_absorbed envAbsentReject "https://h/resolve/main/onnx/m.onnx" []).2
      rfl rfl⟩

/-- Environment: companion fetch always rejects, backend present and fine. -/
def envReject : Env := ⟨rejectFetch, zeroSha, noFailBackend⟩

/-- C1 counterexample: for an eligible location, a rejecting companion fetch
makes `_getFileHash` reject — it does not return `null` — and the rejection
propagates to `match`'s caller, refuting "a companion fetch failure for any
reason yields null, never propagated as a rejection". -/
theorem resolve_miss_counterexample :
    testResolveOnnx "https://h/resolve/main/onnx/m.onnx" = true ∧
    getFileHash envReject "https://h/resolve/main/onnx/m.onnx"
      = .error .fetchFailed ∧
    getFileHash envReject "https://h/resolve/main/onnx/m.onnx" ≠ .ok none ∧
    (matchFn envReject "https://h/resolve/main/onnx/m.onnx" []).1
      = .error .fetchFailed := by
  refine ⟨rfl, rfl, fun h => ?_, rfl⟩
  have h2 : getFileHash envReject "https://h/resolve/main/onnx/m.onnx"
      = Except.error JsError.fetchFailed := rfl
  rw [h2] at h
  cases h

/-- C2 (amended): the resolver returns the companion text after the global
replacement, not the bare digest: each matched block is replaced by its
digest exactly as written (no case normalization) and unmatched text is
kept.  For a canonical pointer `<line>\noid sha256:<digest>\n<line>` the
result is exactly the digest, in its original case, when the final line is
unterminated — and the digest followed by a newline when the text ends with
one. -/
theorem getFileHash_oid_extraction (env : Env) (url : String) (p w q : List Char)
    (hel : testResolveOnnx url = true)
    (hp : ∀ c ∈ p, isLineTerm c = false)
    (hq : ∀ c ∈ q, isLineTerm c = false)
    (hw : w ≠ []) (hwc : ∀ c ∈ w, isWordChar c = true) :
    (env.fetchText (rawUrl url) =
        some (String.mk (p ++ '\n' :: (oidMarker ++ (w ++ '\n' :: q)))) →
      getFileHash env url = .ok (some (String.mk w))) ∧
    (env.fetchText (rawUrl url) =
        some (String.mk (p ++ '\n' :: (oidMarker ++ (w ++ '\n' :: (q ++ ['\n']))))) →
      getFileHash env url = .ok (some (String.mk (w ++ ['\n'])))) := by
  have main : ∀ tl : List Char, tl = [] ∨ tl = ['\n'] →
      env.fetchText (rawUrl url) =
        some (String.mk (p ++ '\n' :: (oidMarker ++ (w ++ '\n' :: (q ++ tl))))) →
      getFileHash env url = .ok (some (String.mk (w ++ tl))) := by
    intro tl htl hft
    have hinc : containsOid
        (String.mk (p ++ '\n' :: (oidMarker ++ (w ++ '\n' :: (q ++ tl))))) = true := by
      show listIncludes oidMarker
        (p ++ '\n' :: (oidMarker ++ (w ++ '\n' :: (q ++ tl)))) = true
      rw [List.append_cons p '\n' (oidMarker ++ (w ++ '\n' :: (q ++ tl)))]
      exact listIncludes_sandwich oidMarker (p ++ ['\n']) (w ++ '\n' :: (q ++ tl))
        (by decide)
    have hgs : gsubOid (p ++ '\n' :: (oidMarker ++ (w ++ '\n' :: (q ++ tl)))) = w ++ tl :=
      gsubOid_pointer p w q tl hp hq hw hwc htl
    have hne : (w ++ tl).isEmpty = false := by
      cases w with
      | nil => exact absurd rfl hw
      | cons a l => rfl
    have hdata : (String.mk (p ++ '\n' :: (oidMarker ++ (w ++ '\n' :: (q ++ tl))))).data
        = p ++ '\n' :: (oidMarker ++ (w ++ '\n' :: (q ++ tl))) := rfl
    unfold getFileHash
    rw [if_pos hel, hft]
    simp [hinc, hdata, hgs, hne]
  constructor
  · intro hft
    have h := main [] (Or.inl rfl)
    simp only [List.append_nil] at h
    exact h hft
  · intro hft
    exact main ['\n'] (Or.inr rfl) hft

/-- Environment: companion fetch resolves to a canonical pointer whose last
line carries no trailing newline. -/
def envPtrNoTrail : Env :=
  ⟨fun _ => some "version 1\noid sha256:AB\nsize 5", zeroSha, noFailBackend⟩

/-- C2 witness: on the canonical unterminated pointer the resolver returns
exactly the digest, in its original (upper) case. -/
theorem getFileHash_oid_extraction_witness :
    getFileHash envPtrNoTrail "https://h/resolve/main/onnx/m.onnx"
      = .ok (some "AB") :=
  (getFileHash_oid_extraction envPtrNoTrail "https://h/resolve/main/onnx/m.onnx"
      "version 1".data "AB".data "size 5".data rfl (by decide) (by decide)
      (by decide) (by decide)).1 rfl

/-- Environment: companion fetch resolves to the trailing-newline pointer
`lfsPointerUpper`, backend present and fine. -/
def envPtr : Env := ⟨fun _ => some lfsPointerUpper, zeroSha, noFailBackend⟩

/-- C2 counterexample: the eligible location's companion text contains the
line `oid sha256:AB`, yet the resolver returns `"AB\n"` — the digest in its
original case with the unmatched trailing newline appended — and not the
case-normalized digest `"ab"` the claim requires (nor even `"AB"`). -/
theorem getFileHash_extraction_counterexample :
    getFileHash envPtr "https://h/resolve/main/onnx/m.onnx" = .ok (some "AB\n") ∧
    getFileHash envPtr "https://h/resolve/main/onnx/m.onnx" ≠ .ok (some "ab") ∧
    getFileHash envPtr "https://h/resolve/main/onnx/m.onnx" ≠ .ok (some "AB") := by
  have h2 : getFileHash envPtr "https://h/resolve/main/onnx/m.onnx"
      = Except.ok (some ("AB\n" : String)) := rfl
  refine ⟨h2, fun h => ?_, fun h => ?_⟩
  · rw [h2] at h
    injection h with h3
    injection h3 with h4
    exact absurd h4 (by decide)
  · rw [h2] at h
    injection h with h3
    injection h3 with h4
    exact absurd h4 (by decide)

set_option maxRecDepth 4096 in
/-- For a byte value, `toString(16).padStart(2, "0")` yields exactly the two
hex digits of the byte, high nibble first. -/
theorem byteToHex_byte (b : Nat) (hb : b < 256) :
    (byteToHex b).data = [hexDigitChar (b / 16), hexDigitChar (b % 16)] := by
  have hall : ∀ n, n < 256 →
      (byteToHex n).data = [hexDigitChar (n / 16), hexDigitChar (n % 16)] := by decide
  exact hall b hb

/-- Every hex digit produced is a lowercase hexadecimal character. -/
theorem hexDigitChar_lower (n : Nat) (hn : n < 16) :
    (hexDigitChar n).isDigit = true ∨ ('a' ≤ hexDigitChar n ∧ hexDigitChar n ≤ 'f') := by
  have hall : ∀ m, m < 16 → ((hexDigitChar m).isDigit = true ∨
      ('a' ≤ hexDigitChar m ∧ hexDigitChar m ≤ 'f')) := by decide
  exact hall n hn

/-- `String.join` concatenates the character data of its pieces in order. -/
theorem string_join_data (l : List String) :
    (String.join l).data = (l.map String.data).flatten := by
  have haux : ∀ (m : List String) (a : String),
      (m.foldl (fun r sx => r ++ sx) a).data = a.data ++ (m.map String.data).flatten := by
    intro m
    induction m with
    | nil => intro a; simp
    | cons x xs ih =>
      intro a
      simp only [List.foldl_cons, List.map_cons, List.flatten_cons]
      rw [ih (a ++ x), String.data_append, List.append_assoc]
  show (l.foldl (fun r sx => r ++ sx) "").data = (l.map String.data).flatten
  rw [haux l ""]
  rfl

/-- C8: `_getBlobHash` returns the fixed identifier `"SHA-256"` and a value
that hex-encodes the digest bytes in byte order, exactly two zero-padded
characters per byte, all of them lowercase hexadecimal characters. -/
theorem getBlobHash_format (h : Blob → List Nat) (blob : Blob)
    (hb : ∀ b ∈ h blob, b < 256) :
    (getBlobHash h blob).algorithm = "SHA-256" ∧
    (getBlobHash h blob).value.data =
      ((h blob).map (fun b => [hexDigitChar (b / 16), hexDigitChar (b % 16)])).flatten ∧
    ∀ c ∈ (getBlobHash h blob).value.data,
      (c.isDigit = true ∨ ('a' ≤ c ∧ c ≤ 'f')) := by
  have hdata : (getBlobHash h blob).value.data =
      ((h blob).map (fun b => [hexDigitChar (b / 16), hexDigitChar (b % 16)])).flatten := by
    show (String.join ((h blob).map byteToHex)).data = _
    rw [string_join_data, List.map_map]
    congr 1
    apply List.map_congr_left
    intro b hbm
    exact byteToHex_byte b (hb b hbm)
  refine ⟨rfl, hdata, ?_⟩
  intro c hc
  rw [hdata, List.mem_flatten] at hc
  obtain ⟨lc, hlc, hcin⟩ := hc
  rw [List.mem_map] at hlc
  obtain ⟨b, hbm, rfl⟩ := hlc
  have hb2 := hb b hbm
  have hdiv : b / 16 < 16 := by omega
  have hmod : b % 16 < 16 := Nat.mod_lt _ (by omega)
  simp only [List.mem_cons, List.mem_singleton] at hcin
  rcases hcin with rfl | rfl | hfalse
  · exact hexDigitChar_lower _ hdiv
  · exact hexDigitChar_lower _ hmod
  · exact absurd hfalse (by simp)

/-- C8 witness: a concrete three-byte digest is encoded as `"00abff"`. -/
theorem getBlobHash_format_witness :
    (getBlobHash (fun _ => [0, 171, 255]) [1]).algorithm = "SHA-256" ∧
    (getBlobHash (fun _ => [0, 171, 255]) [1]).value.data =
      (([0, 171, 255] : List Nat).map
        (fun b => [hexDigitChar (b / 16), hexDigitChar (b % 16)])).flatten ∧
    ∀ c ∈ (getBlobHash (fun _ => [0, 171, 255]) [1]).value.data,
      (c.isDigit = true ∨ ('a' ≤ c ∧ c ≤ 'f')) :=
  getBlobHash_format (fun _ => [0, 171, 255]) [1] (by decide)
